import Mathlib

/-!
Verification development for the `tpcollections` repository: a shallow
embedding of the sqlite-backed mapping layer (`src/tpcollections/mapping.py`),
the connection/transaction manager and collection registry
(`src/tpcollections/db.py`), and the identifier-quoting utility
(`src/tpcollections/util.py`), together with theorems settling the
specification's claims about them.
-/

namespace TPCollections

/-! ### Identifier quoting (`util.py`)

`Identifier.__init__` (util.py lines 12-16) stores the raw string without any
validation.  `Identifier.__str__` (util.py lines 43-47) raises `ValueError`
when the UTF-8 encoding of the stored value contains a `\x00` byte, and
otherwise renders the value wrapped in double quotes with every embedded
double quote doubled.  The UTF-8 encoding of a string contains a zero byte
exactly when the string contains the character U+0000, so the byte-level check
is modelled as a character-level one. -/

/-- `Identifier` (util.py lines 3-47): wraps a raw name.  Construction
(`__init__`) performs no validation at all; it merely stores the value. -/
structure Identifier where
  value : String
deriving DecidableEq, Repr

/-- Errors surfaced by the embedded operations, mirroring the Python
exceptions (`KeyError`, `ValueError`, `NameError`) and the sqlite engine's
own rejection of writes on a read-only connection
(`sqlite3.OperationalError: attempt to write a readonly database`). -/
inductive Err where
  | keyError (key : String)
  | nullByteInIdentifier
  | readOnlyDb
  | illegalApplicationId (found : Int)
  | badUserVersion (found : Int)
  | tableExists (name : String)
  | noSuchTable (name : String)
  | typeMismatch (requested existing : String)
deriving DecidableEq, Repr

/-- `value.replace('"', '""')` from `Identifier.__str__` (util.py line 47),
at the character-list level. -/
def escQuotes : List Char → List Char
  | [] => []
  | c :: rest =>
    if c = '"' then '"' :: '"' :: escQuotes rest
    else c :: escQuotes rest

/-- `Identifier.__str__` (util.py lines 43-47): raise `ValueError` when the
value contains a null byte, else return the double-quoted escaped form.  The
check happens here, at interpolation time, not at construction. -/
def Identifier.render (i : Identifier) : Except Err String :=
  if (Char.ofNat 0) ∈ i.value.data then Except.error Err.nullByteInIdentifier
  else Except.ok (String.mk ('"' :: escQuotes i.value.data ++ ['"']))

/-- A reader of generated statements: scan the body of a double-quoted
identifier (reading `""` as an escaped quote) and return it with the
unconsumed remainder.  This is the sqlite lexer's rule for quoted
identifiers, used to state that `Identifier.render` embeds names
unambiguously.  The flag records whether the scanner has just read a quote
character (which is then either the closing quote or the first half of an
escaped one). -/
def readQuotedAux : Bool → List Char → Option (List Char × List Char)
  | false, [] => none
  | false, c :: rest =>
    if c = '"' then readQuotedAux true rest
    else (readQuotedAux false rest).map (fun p => (c :: p.1, p.2))
  | true, [] => some ([], [])
  | true, c :: rest =>
    if c = '"' then (readQuotedAux false rest).map (fun p => ('"' :: p.1, p.2))
    else some ([], c :: rest)

/-- Consume a leading `"`-quoted identifier from a statement fragment,
returning the name it denotes and the rest of the fragment. -/
def readQuotedIdent : List Char → Option (List Char × List Char)
  | [] => none
  | c :: rest => if c = '"' then readQuotedAux false rest else none

/-! ### The mapping table (`mapping.py`)

The backing table (mapping.py lines 190-196) is
`(id INTEGER PRIMARY KEY AUTOINCREMENT NOT NULL, key TEXT UNIQUE NOT NULL,
expire INTEGER NOT NULL, value ... NOT NULL)`.  A table state is the list of
rows in ascending rowid order together with the AUTOINCREMENT counter (always
larger than every id ever issued). -/

/-- One row of the mapping table. -/
structure Row where
  id : Nat
  key : String
  expire : Int
  value : String
deriving DecidableEq, Repr

/-- The mapping table: rows plus the AUTOINCREMENT counter. -/
structure Table where
  rows : List Row
  nextId : Nat
deriving DecidableEq, Repr

/-- A freshly created table: no rows, AUTOINCREMENT starts issuing id 1. -/
def emptyTable : Table := ⟨[], 1⟩

/-- `SELECT 1 FROM t WHERE key = ?` — `Mapping.__contains__`
(mapping.py lines 311-321). -/
def containsKey (t : Table) (k : String) : Bool :=
  t.rows.any (fun r => r.key = k)

/-- `SELECT COUNT(*) FROM t` — `Mapping.__len__` (mapping.py lines 259-266). -/
def tableLen (t : Table) : Nat := t.rows.length

/-- The body of both purge triggers (mapping.py lines 203-221):
`DELETE FROM t WHERE expire <= unixepoch-now`. -/
def purge (now : Int) (t : Table) : Table :=
  { t with rows := t.rows.filter (fun r => decide (now < r.expire)) }

/-- `UPDATE t SET expire = now + lifespan, value = ? WHERE key = ?` — the
conflict arm of the upsert and the legacy update branch of
`Mapping.__setitem__` (mapping.py lines 345-346 and 351-358). -/
def sqlUpdateRow (t : Table) (k : String) (expire : Int) (v : String) : Table :=
  { t with rows := t.rows.map (fun r =>
      if r.key = k then { r with expire := expire, value := v } else r) }

/-- `INSERT INTO t (key, expire, value) VALUES (?, now + ?, ?)` — the insert
arm of `Mapping.__setitem__` (mapping.py lines 342-344 and 360-365).
AUTOINCREMENT assigns the next counter value and bumps the counter. -/
def sqlInsertRow (t : Table) (k : String) (expire : Int) (v : String) : Table :=
  { rows := t.rows ++ [⟨t.nextId, k, expire, v⟩], nextId := t.nextId + 1 }

/-- `Mapping.__setitem__` (mapping.py lines 334-365).  On sqlite >= 3.24 the
single upsert statement updates in place on a key conflict and inserts
otherwise; on older engines the code takes a `key in self` test followed by an
`UPDATE` or a plain `INSERT` — the same two arms.  Either arm fires a purge
trigger installed at schema creation (mapping.py lines 203-221): the insert
path fires the `AFTER INSERT` trigger and the update path (which sets the
`value` column) fires the `AFTER UPDATE OF value` trigger, each deleting every
row with `expire <= now`. -/
def setitem (now lifespan : Int) (t : Table) (k v : String) : Table :=
  if containsKey t k then purge now (sqlUpdateRow t k (now + lifespan) v)
  else purge now (sqlInsertRow t k (now + lifespan) v)

/-- `Mapping.__getitem__` (mapping.py lines 323-332): return the value of the
first row matching the key, else raise `KeyError`. -/
def getitem (t : Table) (k : String) : Except Err String :=
  match t.rows.find? (fun r => r.key = k) with
  | some r => Except.ok r.value
  | none => Except.error (Err.keyError k)

/-- `Mapping.__delitem__` (mapping.py lines 367-374):
`DELETE FROM t WHERE key = ?`, then raise `KeyError` unless
`cursor.rowcount == 1`.  The rowcount is the number of rows the DELETE
matched; when it is not 1 under the unique-key schema it is 0, so the state
is unchanged and the error carries the key. -/
def delitem (t : Table) (k : String) : Except Err Table :=
  if (t.rows.filter (fun r => r.key = k)).length = 1 then
    Except.ok { t with rows := t.rows.filter (fun r => ¬ r.key = k) }
  else Except.error (Err.keyError k)

/-- `Mapping.clear` (mapping.py lines 376-381): `DELETE FROM t`. -/
def clearTable (t : Table) : Table := { t with rows := [] }

/-- `Mapping.postpone` (mapping.py lines 383-390):
`UPDATE t SET expire = now + lifespan WHERE key = ?`.  The statement does not
touch the `value` column, so the `AFTER UPDATE OF value` trigger does not
fire and no purge happens. -/
def postpone (now lifespan : Int) (t : Table) (k : String) : Table :=
  { t with rows := t.rows.map (fun r =>
      if r.key = k then { r with expire := now + lifespan } else r) }

/-- `Mapping.postpone_all` (mapping.py lines 392-399):
`UPDATE t SET expire = now + lifespan`, again without touching `value`, so
again no purge trigger fires. -/
def postponeAll (now lifespan : Int) (t : Table) : Table :=
  { t with rows := t.rows.map (fun r => { r with expire := now + lifespan }) }

/-! ### Ordered iteration (`mapping.py` `_Keys` / `_Values` / `_Items`)

Each iterator class issues `SELECT ... FROM t ORDER BY {order} {ASC|DESC}`
(mapping.py lines 60-71, 94-105, 127-139) where `{order}` is the `Order` enum
value `id` or `key` (mapping.py lines 28-40).  `ORDER BY` is embedded as a
sort of the row list by the selected column; the states reached by the
operations have unique ids and unique keys, so the sort is unambiguous. -/

/-- The `Order` enum (mapping.py lines 28-40): iteration by rowid
(insertion order) or by key (text order of the stored keys). -/
inductive IterOrder where
  | byId
  | byKey
deriving DecidableEq, Repr

/-- The `ORDER BY {order} ASC` comparison. -/
def rowLe (o : IterOrder) : Row → Row → Prop :=
  match o with
  | .byId => fun a b => a.id ≤ b.id
  | .byKey => fun a b => a.key ≤ b.key

instance rowLeDecidable (o : IterOrder) : DecidableRel (rowLe o) := by
  cases o <;> · intro a b; simp only [rowLe]; infer_instance

instance rowLeTotal (o : IterOrder) : IsTotal Row (rowLe o) := by
  cases o <;> exact ⟨fun a b => le_total _ _⟩

instance rowLeTrans (o : IterOrder) : IsTrans Row (rowLe o) := by
  cases o <;> exact ⟨fun a b c h h' => le_trans h h'⟩

/-- The `ORDER BY {order} DESC` comparison. -/
def rowGe (o : IterOrder) : Row → Row → Prop := fun a b => rowLe o b a

instance rowGeDecidable (o : IterOrder) : DecidableRel (rowGe o) :=
  fun a b => rowLeDecidable o b a

instance rowGeTotal (o : IterOrder) : IsTotal Row (rowGe o) :=
  ⟨fun a b => (rowLeTotal o).total b a⟩

instance rowGeTrans (o : IterOrder) : IsTrans Row (rowGe o) :=
  ⟨fun _ _ _ h h' => (rowLeTrans o).trans _ _ _ h' h⟩

/-- `SELECT key, value FROM t ORDER BY {order} {ASC|DESC}`: the row sequence
produced by `_Items._iterator` (mapping.py lines 127-133); `desc` selects the
`DESC` direction taken by `__reversed__` (mapping.py lines 138-139). -/
def selectRows (o : IterOrder) (desc : Bool) (t : Table) : List Row :=
  if desc then List.insertionSort (rowGe o) t.rows
  else List.insertionSort (rowLe o) t.rows

/-- `_Keys._iterator` (mapping.py lines 60-71): project the key column. -/
def keysSeq (o : IterOrder) (desc : Bool) (t : Table) : List String :=
  (selectRows o desc t).map (fun r => r.key)

/-- `_Values._iterator` (mapping.py lines 94-105): project the value
column. -/
def valuesSeq (o : IterOrder) (desc : Bool) (t : Table) : List String :=
  (selectRows o desc t).map (fun r => r.value)

/-- `_Items._iterator` (mapping.py lines 127-139): project key and value. -/
def itemsSeq (o : IterOrder) (desc : Bool) (t : Table) : List (String × String) :=
  (selectRows o desc t).map (fun r => (r.key, r.value))

/-! ### Access modes and statement issuance (`db.py`, claim C1)

`Mode` is db.py lines 55-71.  The bodies of `Mapping.__setitem__`,
`__delitem__` and `clear` (mapping.py lines 334-381) contain no read-only
check of any kind: each issues its single write statement unconditionally.
On a connection opened in `READ_ONLY` or `IMMUTABLE` mode the sqlite engine
itself rejects the write when the statement executes, leaving the table
unmodified.  Each operation is paired with the list of statements it hands to
the engine, so that "before issuing any statement" is expressible. -/

/-- The `Mode` enum (db.py lines 55-71). -/
inductive Mode where
  | readWrite
  | readOnly
  | immutable
deriving DecidableEq, Repr

/-- The write statements the mapping layer issues. -/
inductive Stmt where
  | upsert (key value : String)
  | deleteWhereKey (key : String)
  | deleteAllRows
deriving DecidableEq, Repr

/-- Engine-side execution of one write statement: sqlite applies it on a
read-write connection and rejects it with `attempt to write a readonly
database` otherwise.  (This models the storage engine at its interface, as
the layer under verification delegates write protection entirely to it.) -/
def execWrite (mode : Mode) (run : Table → Except Err Table) (t : Table) :
    Except Err Table :=
  if mode = Mode.readWrite then run t else Except.error Err.readOnlyDb

/-- `Mapping.__setitem__` as issued against a moded connection: the statement
list is produced unconditionally (mapping.py lines 340-365 have no mode
check); the outcome is the engine's. -/
def setitemOp (mode : Mode) (now lifespan : Int) (t : Table) (k v : String) :
    Except Err Table × List Stmt :=
  (execWrite mode (fun t => Except.ok (setitem now lifespan t k v)) t,
   [Stmt.upsert k v])

/-- `Mapping.__delitem__` against a moded connection (mapping.py lines
367-374: no mode check). -/
def delitemOp (mode : Mode) (t : Table) (k : String) :
    Except Err Table × List Stmt :=
  (execWrite mode (fun t => delitem t k) t, [Stmt.deleteWhereKey k])

/-- `Mapping.clear` against a moded connection (mapping.py lines 376-381: no
mode check). -/
def clearOp (mode : Mode) (t : Table) : Except Err Table × List Stmt :=
  (execWrite mode (fun t => Except.ok (clearTable t)) t, [Stmt.deleteAllRows])

/-! ### Transaction scopes (`db.py`, claim C6)

`Connection.__enter__` (db.py lines 230-236) begins a genuine transaction
when the scope stack is empty and a savepoint otherwise, pushing the scope;
`Connection.__exit__` (db.py lines 238-244) pops the top scope and delegates
to its exit.  The `savepoint` context manager (db.py lines 18-34) executes
`ROLLBACK TO name` then `RELEASE name` on failure, re-raising, and `RELEASE
name` alone on success; the `transaction` context manager (db.py lines 36-53)
executes `ROLLBACK`, re-raising, or `COMMIT`.  A sqlite scope is embedded as
a snapshot of the database at its entry point: `SAVEPOINT`/`BEGIN` push the
snapshot, `ROLLBACK [TO]` restores it, `RELEASE`/`COMMIT` pop it keeping the
current state. -/

/-- The statements the scope-closing paths execute. -/
inductive TxAction where
  | rollbackTo
  | release
  | rollback
  | commit
deriving DecidableEq, Repr

/-- A connection's transactional state: the live database contents plus the
stack of entry-point snapshots of the open scopes (top first; the bottom
entry is the outermost transaction's). -/
structure ConnState where
  live : Table
  stack : List Table
deriving DecidableEq, Repr

/-- `Connection.__enter__` (db.py lines 230-236): both `BEGIN` and
`SAVEPOINT` snapshot the current state onto the scope stack. -/
def connEnter (s : ConnState) : ConnState :=
  { s with stack := s.live :: s.stack }

/-- Writes performed inside the current scope act on the live state only. -/
def connWrite (w : Table → Table) (s : ConnState) : ConnState :=
  { s with live := w s.live }

/-- Exit of the `savepoint` context manager (db.py lines 26-34) given the
entry snapshot: on failure `ROLLBACK TO` restores the snapshot and `RELEASE`
still runs (the `finally`), and the failure propagates; on success `RELEASE`
keeps the live state. -/
def savepointExit (failed : Bool) (live entry : Table) :
    Table × List TxAction × Bool :=
  if failed then (entry, [TxAction.rollbackTo, TxAction.release], true)
  else (live, [TxAction.release], false)

/-- Exit of the `transaction` context manager (db.py lines 41-53): `ROLLBACK`
restores the entry snapshot and the failure propagates, or `COMMIT` keeps the
live state. -/
def transactionExit (failed : Bool) (live entry : Table) :
    Table × List TxAction × Bool :=
  if failed then (entry, [TxAction.rollback], true)
  else (live, [TxAction.commit], false)

/-- `Connection.__exit__` (db.py lines 238-244): pop the top scope — which is
a transaction exactly when it was the only open scope — and run its exit.
Returns the new state, the statements executed, and whether the failure
propagates; `none` models the `IndexError` of popping an empty stack. -/
def connExit (failed : Bool) (s : ConnState) :
    Option (ConnState × List TxAction × Bool) :=
  match s.stack with
  | [] => none
  | entry :: rest =>
    let out := if rest.isEmpty then transactionExit failed s.live entry
               else savepointExit failed s.live entry
    some ({ live := out.1, stack := rest }, out.2.1, out.2.2)

/-! ### The collection registry (`db.py` `Base.__init__`, claim C7) -/

/-- `APPLICATION_ID` (db.py line 192). -/
def APPLICATION_ID : Int := -1238962565

/-- A storage file as `Base.__init__` sees it: the two pragma markers, the
`tpcollections` registry table (absent or a list of
`(name, type, version)` rows), the set of names present in `sqlite_master`,
and the per-collection data tables. -/
structure DbFile where
  applicationId : Int
  userVersion : Int
  registry : Option (List (String × String × Nat))
  masterNames : List String
  tables : List (String × Table)
deriving DecidableEq, Repr

/-- `SELECT type, version FROM tpcollections WHERE name = ?`. -/
def regLookup (reg : List (String × String × Nat)) (name : String) :
    Option (String × Nat) :=
  (reg.find? (fun e => e.1 = name)).map (fun e => e.2)

/-- The `Base._version` getter (db.py lines 335-344): the recorded version of
a registered collection. -/
def getVersion (f : DbFile) (name : String) : Option Nat :=
  match f.registry with
  | none => none
  | some reg => (regLookup reg name).map (fun p => p.2)

/-- `Base.__init__` (db.py lines 266-326).  In order: check/initialize the
`application_id` pragma; check/initialize the `user_version` pragma; on a
writable connection create the registry table if absent; look the collection
name up in the registry.  Unknown name: fail if a foreign object of that name
exists in `sqlite_master`, else insert `(name, type, 0)`.  Known name: fail
with a type mismatch naming the requested and recorded kinds when they
differ, else proceed.  Errors carry the file state at the moment of the
raise (a raised statement never runs the statements after it). -/
def baseInit (readOnly : Bool) (f : DbFile) (table ty : String) :
    Except (Err × DbFile) DbFile :=
  let f1 := if f.applicationId = 0 then { f with applicationId := APPLICATION_ID } else f
  if f1.applicationId ≠ APPLICATION_ID then
    Except.error (Err.illegalApplicationId f1.applicationId, f1)
  else
    let f2 := if f1.userVersion = 0 then { f1 with userVersion := 1 } else f1
    if f2.userVersion ≠ 1 then
      Except.error (Err.badUserVersion f2.userVersion, f2)
    else
      let f3 := if ¬ readOnly ∧ f2.registry = none then { f2 with registry := some [] } else f2
      match f3.registry with
      | none => Except.error (Err.noSuchTable "tpcollections", f3)
      | some reg =>
        match regLookup reg table with
        | none =>
          if table ∈ f3.masterNames then
            Except.error (Err.tableExists table, f3)
          else
            Except.ok { f3 with registry := some (reg ++ [(table, ty, 0)]) }
        | some (existingTy, _) =>
          if ty ≠ existingTy then
            Except.error (Err.typeMismatch ty existingTy, f3)
          else
            Except.ok f3

/-! ### Operation sequences and spec-side reference models (claims C2, C3) -/

/-- One mutating operation of a client session. -/
inductive Op where
  | set (key value : String)
  | del (key : String)
deriving DecidableEq, Repr

/-- Run a sequence of operations left to right at a fixed clock reading and
lifespan; a failing `delete` aborts the run with its error, as the raised
`KeyError` would. -/
def runOps (now lifespan : Int) : List Op → Table → Except Err Table
  | [], t => Except.ok t
  | Op.set k v :: rest, t => runOps now lifespan rest (setitem now lifespan t k v)
  | Op.del k :: rest, t =>
    match delitem t k with
    | Except.ok t2 => runOps now lifespan rest t2
    | Except.error e => Except.error e

/-- Modelled from the spec (claim C2): the keys that were set and not
subsequently deleted, in order of first setting — the reference model the
table is compared against.  A `set` appends the key unless already live, a
`delete` removes it. -/
def specLiveKeysFrom (acc : List String) : List Op → List String
  | [] => acc
  | Op.set k _ :: rest =>
    specLiveKeysFrom (if k ∈ acc then acc else acc ++ [k]) rest
  | Op.del k :: rest => specLiveKeysFrom (acc.filter (fun x => ¬ x = k)) rest

/-- Modelled from the spec (claim C2): live keys of an operation sequence run
from an empty mapping. -/
def specLiveKeys (ops : List Op) : List String := specLiveKeysFrom [] ops

/-- Run a sequence of `set` operations (no deletes) left to right. -/
def runSets (now lifespan : Int) : List (String × String) → Table → Table
  | [], t => t
  | (k, v) :: rest, t => runSets now lifespan rest (setitem now lifespan t k v)

/-- Modelled from the spec (claim C3): the keys in the order they were first
inserted by a sequence of `set` operations, unaffected by later updates. -/
def specFirstInsertFrom (acc : List String) : List (String × String) → List String
  | [] => acc
  | (k, _) :: rest =>
    specFirstInsertFrom (if k ∈ acc then acc else acc ++ [k]) rest

/-- Modelled from the spec (claim C3): first-insertion key order starting
from an empty mapping. -/
def specFirstInsert (ops : List (String × String)) : List String :=
  specFirstInsertFrom [] ops

/-! ### State invariant

Every table reachable through the embedded operations keeps its rows in
strictly ascending rowid order (rowids come from AUTOINCREMENT), keeps keys
unique (the `UNIQUE` constraint), and keeps every issued rowid below the
AUTOINCREMENT counter. -/

/-- The reachable-state invariant of the mapping table. -/
structure Inv (t : Table) : Prop where
  asc : t.rows.Pairwise (fun a b => a.id < b.id)
  keysNodup : (t.rows.map (fun r => r.key)).Nodup
  idsBelow : ∀ r ∈ t.rows, r.id < t.nextId

/-- All rows of a table are logically live at clock reading `now`. -/
def AllLive (now : Int) (t : Table) : Prop :=
  ∀ r ∈ t.rows, now < r.expire

/-! ### Helper lemmas -/

theorem purge_eq_self {now : Int} {t : Table} (h : AllLive now t) :
    purge now t = t := by
  unfold purge
  cases t with
  | mk rows nextId =>
    simp only [Table.mk.injEq, and_true]
    exact List.filter_eq_self.mpr (fun r hr => by simpa using h r hr)

theorem map_update_keys (l : List Row) (k : String) (e : Int) (v : String) :
    (l.map (fun r => if r.key = k then { r with expire := e, value := v } else r)).map
        (fun r => r.key)
      = l.map (fun r => r.key) := by
  induction l with
  | nil => rfl
  | cons a l ih =>
    by_cases h : a.key = k <;> simp only [List.map_cons, h, if_true, if_false, ih]

theorem sqlUpdateRow_keys (t : Table) (k : String) (e : Int) (v : String) :
    (sqlUpdateRow t k e v).rows.map (fun r => r.key)
      = t.rows.map (fun r => r.key) :=
  map_update_keys t.rows k e v

theorem map_update_idKeys (l : List Row) (k : String) (e : Int) (v : String) :
    (l.map (fun r => if r.key = k then { r with expire := e, value := v } else r)).map
        (fun r => (r.id, r.key))
      = l.map (fun r => (r.id, r.key)) := by
  induction l with
  | nil => rfl
  | cons a l ih =>
    by_cases h : a.key = k <;> simp only [List.map_cons, h, if_true, if_false, ih]

theorem sqlUpdateRow_idKeys (t : Table) (k : String) (e : Int) (v : String) :
    (sqlUpdateRow t k e v).rows.map (fun r => (r.id, r.key))
      = t.rows.map (fun r => (r.id, r.key)) :=
  map_update_idKeys t.rows k e v

theorem allLive_sqlUpdateRow {now lifespan : Int} {t : Table} {k v : String}
    (hl : 0 < lifespan) (h : AllLive now t) :
    AllLive now (sqlUpdateRow t k (now + lifespan) v) := by
  intro r hr
  unfold sqlUpdateRow at hr
  simp only [List.mem_map] at hr
  obtain ⟨r0, hr0, hEq⟩ := hr
  by_cases hk : r0.key = k
  · subst hEq; simp [hk]; omega
  · subst hEq; simpa [hk] using h r0 hr0

theorem allLive_sqlInsertRow {now lifespan : Int} {t : Table} {k v : String}
    (hl : 0 < lifespan) (h : AllLive now t) :
    AllLive now (sqlInsertRow t k (now + lifespan) v) := by
  intro r hr
  unfold sqlInsertRow at hr
  simp only [List.mem_append, List.mem_singleton] at hr
  rcases hr with hr | hr
  · exact h r hr
  · subst hr; simp; omega

/-- With a positive lifespan and all rows live, the purge trigger fired by
`set` removes nothing, so `set` is exactly its update or insert arm. -/
theorem setitem_rows_eq {now lifespan : Int} {t : Table} {k v : String}
    (hl : 0 < lifespan) (h : AllLive now t) :
    setitem now lifespan t k v
      = if containsKey t k then sqlUpdateRow t k (now + lifespan) v
        else sqlInsertRow t k (now + lifespan) v := by
  unfold setitem
  by_cases hc : containsKey t k
  · simp only [hc, if_true]
    exact purge_eq_self (allLive_sqlUpdateRow hl h)
  · simp only [hc, if_false]
    exact purge_eq_self (allLive_sqlInsertRow hl h)

theorem allLive_setitem (now lifespan : Int) (t : Table) (k v : String) :
    AllLive now (setitem now lifespan t k v) := by
  intro r hr
  unfold setitem at hr
  by_cases hc : containsKey t k = true
  · rw [if_pos hc] at hr
    simp only [purge, List.mem_filter, decide_eq_true_eq] at hr
    exact hr.2
  · rw [if_neg hc] at hr
    simp only [purge, List.mem_filter, decide_eq_true_eq] at hr
    exact hr.2

theorem containsKey_iff_mem {t : Table} {k : String} :
    containsKey t k = true ↔ k ∈ t.rows.map (fun r => r.key) := by
  simp only [containsKey, List.any_eq_true, decide_eq_true_eq, List.mem_map]

theorem filter_key_map (l : List Row) (k : String) :
    (l.filter (fun r => ¬ r.key = k)).map (fun r => r.key)
      = (l.map (fun r => r.key)).filter (fun x => ¬ x = k) := by
  induction l with
  | nil => rfl
  | cons a l ih =>
    simp only [decide_not] at ih
    by_cases h : a.key = k
    · simp [List.filter_cons, h, ih]
    · simp [List.filter_cons, h, ih]

theorem sqlInsertRow_keys (t : Table) (k : String) (e : Int) (v : String) :
    (sqlInsertRow t k e v).rows.map (fun r => r.key)
      = t.rows.map (fun r => r.key) ++ [k] := by
  simp [sqlInsertRow]

theorem allLive_delitem {now : Int} {t t2 : Table} {k : String}
    (h : AllLive now t) (hdel : delitem t k = Except.ok t2) :
    AllLive now t2 := by
  unfold delitem at hdel
  split at hdel
  · cases hdel
    intro r hr
    exact h r (List.mem_of_mem_filter hr)
  · cases hdel

theorem delitem_ok_rows {t t2 : Table} {k : String}
    (hdel : delitem t k = Except.ok t2) :
    t2.rows = t.rows.filter (fun r => ¬ r.key = k) := by
  unfold delitem at hdel
  split at hdel
  · cases hdel; rfl
  · cases hdel

/-- The table's key column refines the spec-side live-key fold: running any
operation sequence (at a fixed clock reading, with a positive lifespan so no
write's purge removes anything) keeps the key column equal to the reference
model's account of keys set and not subsequently deleted. -/
theorem runOps_keys (now lifespan : Int) (hl : 0 < lifespan) :
    ∀ (ops : List Op) (t : Table) (acc : List String),
      t.rows.map (fun r => r.key) = acc →
      AllLive now t →
      ∀ t2, runOps now lifespan ops t = Except.ok t2 →
        t2.rows.map (fun r => r.key) = specLiveKeysFrom acc ops := by
  intro ops
  induction ops with
  | nil =>
    intro t acc hk _ t2 h
    simp only [runOps] at h
    cases h
    simpa [specLiveKeysFrom] using hk
  | cons op rest ih =>
    cases op with
    | set k v =>
      intro t acc hk hlive t2 h
      simp only [runOps] at h
      simp only [specLiveKeysFrom]
      refine ih (setitem now lifespan t k v)
        (if k ∈ acc then acc else acc ++ [k]) ?_ (allLive_setitem now lifespan t k v) t2 h
      rw [setitem_rows_eq hl hlive]
      by_cases hc : containsKey t k = true
      · rw [if_pos hc, sqlUpdateRow_keys, hk]
        have hmem : k ∈ acc := hk ▸ containsKey_iff_mem.mp hc
        rw [if_pos hmem]
      · rw [if_neg hc, sqlInsertRow_keys, hk]
        have hmem : k ∉ acc := by
          intro hin
          exact hc (containsKey_iff_mem.mpr (hk ▸ hin))
        rw [if_neg hmem]
    | del k =>
      intro t acc hk hlive t2 h
      simp only [runOps] at h
      cases hdel : delitem t k with
      | error e => rw [hdel] at h; cases h
      | ok t3 =>
        rw [hdel] at h
        simp only [specLiveKeysFrom]
        refine ih t3 (acc.filter (fun x => ¬ x = k)) ?_ (allLive_delitem hlive hdel) t2 h
        rw [delitem_ok_rows hdel, filter_key_map, hk]

theorem updId (k : String) (e : Int) (v : String) (r : Row) :
    (if r.key = k then { r with expire := e, value := v } else r).id = r.id := by
  split <;> rfl

theorem inv_empty : Inv emptyTable :=
  ⟨List.Pairwise.nil, List.nodup_nil, by intro r hr; cases hr⟩

theorem inv_setitem {now lifespan : Int} {t : Table} {k v : String}
    (hl : 0 < lifespan) (hlive : AllLive now t) (hinv : Inv t) :
    Inv (setitem now lifespan t k v) := by
  rw [setitem_rows_eq hl hlive]
  by_cases hc : containsKey t k = true
  · rw [if_pos hc]
    refine ⟨?_, ?_, ?_⟩
    · show ((t.rows.map _).Pairwise _)
      rw [List.pairwise_map]
      refine hinv.asc.imp ?_
      intro a b h
      simpa only [updId] using h
    · show ((t.rows.map _).map _).Nodup
      rw [map_update_keys]
      exact hinv.keysNodup
    · intro r hr
      simp only [sqlUpdateRow, List.mem_map] at hr
      obtain ⟨r0, hr0, hEq⟩ := hr
      have := hinv.idsBelow r0 hr0
      subst hEq
      simpa only [updId] using this
  · rw [if_neg hc]
    have hkNot : k ∉ t.rows.map (fun r => r.key) := fun hin => hc (containsKey_iff_mem.mpr hin)
    refine ⟨?_, ?_, ?_⟩
    · show ((t.rows ++ [_]).Pairwise _)
      rw [List.pairwise_append]
      refine ⟨hinv.asc, List.pairwise_singleton _ _, ?_⟩
      intro a ha b hb
      simp only [List.mem_singleton] at hb
      subst hb
      exact hinv.idsBelow a ha
    · show ((t.rows ++ [_]).map _).Nodup
      rw [List.map_append]
      simp only [List.map_cons, List.map_nil]
      rw [List.nodup_append]
      exact ⟨hinv.keysNodup, List.nodup_singleton _,
        by intro x hx hx'; simp only [List.mem_singleton] at hx'; subst hx'; exact hkNot hx⟩
    · intro r hr
      simp only [sqlInsertRow, List.mem_append, List.mem_singleton] at hr
      rcases hr with hr | hr
      · have := hinv.idsBelow r hr
        simp only [sqlInsertRow]
        omega
      · subst hr
        simp [sqlInsertRow]

theorem runSets_state (now lifespan : Int) (hl : 0 < lifespan) :
    ∀ (ops : List (String × String)) (t : Table) (acc : List String),
      t.rows.map (fun r => r.key) = acc →
      AllLive now t → Inv t →
      (runSets now lifespan ops t).rows.map (fun r => r.key)
          = specFirstInsertFrom acc ops
        ∧ AllLive now (runSets now lifespan ops t)
        ∧ Inv (runSets now lifespan ops t) := by
  intro ops
  induction ops with
  | nil =>
    intro t acc hk hlive hinv
    exact ⟨hk, hlive, hinv⟩
  | cons p rest ih =>
    obtain ⟨k, v⟩ := p
    intro t acc hk hlive hinv
    simp only [runSets, specFirstInsertFrom]
    refine ih (setitem now lifespan t k v) (if k ∈ acc then acc else acc ++ [k]) ?_
      (allLive_setitem now lifespan t k v) (inv_setitem hl hlive hinv)
    rw [setitem_rows_eq hl hlive]
    by_cases hc : containsKey t k = true
    · rw [if_pos hc, sqlUpdateRow_keys, hk]
      have hmem : k ∈ acc := hk ▸ containsKey_iff_mem.mp hc
      rw [if_pos hmem]
    · rw [if_neg hc, sqlInsertRow_keys, hk]
      have hmem : k ∉ acc := fun hin => hc (containsKey_iff_mem.mpr (hk ▸ hin))
      rw [if_neg hmem]

/-- For a table whose rows are in strictly ascending rowid order, a
`SELECT ... ORDER BY id ASC` returns the rows as stored. -/
theorem selectRows_byId_asc {t : Table} (hinv : Inv t) :
    selectRows IterOrder.byId false t = t.rows := by
  unfold selectRows
  rw [if_neg (by simp)]
  exact List.Sorted.insertionSort_eq
    (hinv.asc.imp (fun h => le_of_lt h))

/-- C2: for every finite sequence of `set`/`delete` operations applied to an
initially empty mapping, run at a fixed clock reading with a positive
lifespan (so no expiration takes effect), `len()` afterwards equals the
number of keys that were set and not subsequently deleted, and `contains(k)`
holds exactly for the keys set and not subsequently deleted.  (Proved for all
operation sequences, in particular ones on distinct keys.) -/
theorem spec_c2_len_contains (now lifespan : Int) (ops : List Op) (t2 : Table)
    (hl : 0 < lifespan)
    (hrun : runOps now lifespan ops emptyTable = Except.ok t2) :
    tableLen t2 = (specLiveKeys ops).length ∧
      ∀ k, (containsKey t2 k = true ↔ k ∈ specLiveKeys ops) := by
  have hkeys := runOps_keys now lifespan hl ops emptyTable [] rfl
    (by intro r hr; cases hr) t2 hrun
  constructor
  · have hlen := congrArg List.length hkeys
    simpa [tableLen, specLiveKeys] using hlen
  · intro k
    rw [containsKey_iff_mem, hkeys]
    rfl

/-- Witness for C2 at the operation sequence
`set a x; set b y; delete a`. -/
theorem spec_c2_len_contains_witness :
    (0 : Int) < 1 ∧
    runOps 0 1 [Op.set "a" "x", Op.set "b" "y", Op.del "a"] emptyTable
      = Except.ok ⟨[⟨2, "b", 1, "y"⟩], 3⟩ ∧
    (tableLen ⟨[⟨2, "b", 1, "y"⟩], 3⟩
        = (specLiveKeys [Op.set "a" "x", Op.set "b" "y", Op.del "a"]).length ∧
      ∀ k, (containsKey ⟨[⟨2, "b", 1, "y"⟩], 3⟩ k = true
        ↔ k ∈ specLiveKeys [Op.set "a" "x", Op.set "b" "y", Op.del "a"])) :=
  ⟨by decide, by rfl,
    spec_c2_len_contains 0 1 [Op.set "a" "x", Op.set "b" "y", Op.del "a"]
      ⟨[⟨2, "b", 1, "y"⟩], 3⟩ (by decide) (by rfl)⟩

theorem find_update_value (k : String) (e : Int) (v : String) :
    ∀ l : List Row, (∃ r ∈ l, r.key = k) →
      ∃ r0, (l.map (fun r =>
            if r.key = k then { r with expire := e, value := v } else r)).find?
          (fun r => r.key = k) = some r0 ∧ r0.value = v := by
  intro l
  induction l with
  | nil =>
    intro hmem
    obtain ⟨r, hr, _⟩ := hmem
    cases hr
  | cons a l ih =>
    intro hmem
    by_cases h : a.key = k
    · refine ⟨{ a with expire := e, value := v }, ?_, rfl⟩
      rw [List.map_cons, if_pos h]
      exact List.find?_cons_of_pos _ (by simp [h])
    · obtain ⟨r, hr, hk⟩ := hmem
      have hr' : r ∈ l := by
        rcases List.mem_cons.mp hr with h' | h'
        · exact absurd (h' ▸ hk) h
        · exact h'
      obtain ⟨r0, hfind, hval⟩ := ih ⟨r, hr', hk⟩
      refine ⟨r0, ?_, hval⟩
      rw [List.map_cons, if_neg h]
      rw [List.find?_cons_of_neg _ (by simp [h])]
      exact hfind

/-- Reading back the key just updated by the `UPDATE ... WHERE key = ?` arm
returns the new value. -/
theorem getitem_sqlUpdateRow {t : Table} {k : String} (e : Int) (v : String)
    (hc : containsKey t k = true) :
    getitem (sqlUpdateRow t k e v) k = Except.ok v := by
  have hmem : ∃ r ∈ t.rows, r.key = k := by
    simpa only [containsKey, List.any_eq_true, decide_eq_true_eq] using hc
  obtain ⟨r0, hfind, hval⟩ := find_update_value k e v t.rows hmem
  unfold getitem sqlUpdateRow
  simp only
  rw [hfind]
  show Except.ok r0.value = Except.ok v
  rw [hval]

/-- C3: with no expiration taking effect, `set` on a key already present
replaces the stored value (and expiration) in place — the resulting rows are
exactly the old rows with the matching row's `value` set to the new value,
every row's sequence id and key unchanged, and reading the key back returns
the new value; `set` on an absent key appends a new row whose sequence id is
the AUTOINCREMENT counter, strictly larger than every existing row's id; and
for any sequence of `set` operations from an empty mapping, iteration in id
order yields the keys in the order they were first inserted, unaffected by
later value updates. -/
theorem spec_c3_upsert_identity :
    (∀ (now lifespan : Int) (t : Table) (k v : String),
      0 < lifespan → AllLive now t → containsKey t k = true →
        (setitem now lifespan t k v).rows
            = t.rows.map (fun r =>
                if r.key = k then { r with expire := now + lifespan, value := v } else r)
          ∧ (setitem now lifespan t k v).rows.map (fun r => (r.id, r.key))
            = t.rows.map (fun r => (r.id, r.key))
          ∧ getitem (setitem now lifespan t k v) k = Except.ok v) ∧
    (∀ (now lifespan : Int) (t : Table) (k v : String),
      0 < lifespan → AllLive now t → Inv t → containsKey t k = false →
        (setitem now lifespan t k v).rows
            = t.rows ++ [⟨t.nextId, k, now + lifespan, v⟩]
          ∧ ∀ r ∈ t.rows, r.id < t.nextId) ∧
    (∀ (now lifespan : Int) (ops : List (String × String)),
      0 < lifespan →
        keysSeq IterOrder.byId false (runSets now lifespan ops emptyTable)
          = specFirstInsert ops) := by
  refine ⟨?_, ?_, ?_⟩
  · intro now lifespan t k v hl hlive hc
    rw [setitem_rows_eq hl hlive, if_pos hc]
    exact ⟨rfl, sqlUpdateRow_idKeys t k (now + lifespan) v,
      getitem_sqlUpdateRow (now + lifespan) v hc⟩
  · intro now lifespan t k v hl hlive hinv hc
    rw [setitem_rows_eq hl hlive, if_neg (by simp [hc])]
    exact ⟨rfl, hinv.idsBelow⟩
  · intro now lifespan ops hl
    obtain ⟨hkeys, _, hinv⟩ := runSets_state now lifespan hl ops emptyTable [] rfl
      (by intro r hr; cases hr) inv_empty
    unfold keysSeq
    rw [selectRows_byId_asc hinv]
    exact hkeys

/-- Witness for C3: updating key `a` of a one-row table replaces its value
with `new` in place, keeping id 1, and reading `a` back yields `new`;
inserting key `b` appends id 2; running `set a x; set b y; set a z` from
empty iterates in id order as `a, b`. -/
theorem spec_c3_upsert_identity_witness :
    ((setitem 0 1 ⟨[⟨1, "a", 5, "old"⟩], 2⟩ "a" "new").rows
        = [⟨1, "a", 1, "new"⟩]
      ∧ (setitem 0 1 ⟨[⟨1, "a", 5, "old"⟩], 2⟩ "a" "new").rows.map (fun r => (r.id, r.key))
        = [(1, "a")]
      ∧ getitem (setitem 0 1 ⟨[⟨1, "a", 5, "old"⟩], 2⟩ "a" "new") "a"
        = Except.ok "new") ∧
    ((setitem 0 1 ⟨[⟨1, "a", 5, "old"⟩], 2⟩ "b" "new").rows
        = [⟨1, "a", 5, "old"⟩, ⟨2, "b", 0 + 1, "new"⟩]
      ∧ ∀ r ∈ ([⟨1, "a", 5, "old"⟩] : List Row), r.id < 2) ∧
    keysSeq IterOrder.byId false (runSets 0 1 [("a", "x"), ("b", "y"), ("a", "z")] emptyTable)
        = specFirstInsert [("a", "x"), ("b", "y"), ("a", "z")] := by
  refine ⟨?_, ?_, ?_⟩
  · have h := spec_c3_upsert_identity.1 0 1 ⟨[⟨1, "a", 5, "old"⟩], 2⟩ "a" "new"
      (by decide) (by unfold AllLive; decide) (by decide)
    exact ⟨h.1.trans (by decide), h.2.1.trans (by decide), h.2.2⟩
  · have h := spec_c3_upsert_identity.2.1 0 1 ⟨[⟨1, "a", 5, "old"⟩], 2⟩ "b" "new"
      (by decide) (by unfold AllLive; decide) ⟨by decide, by decide, by decide⟩ (by decide)
    simpa using h
  · exact spec_c3_upsert_identity.2.2 0 1 [("a", "x"), ("b", "y"), ("a", "z")] (by decide)

/-- Two lists that are permutations of each other and both pairwise-ordered
by an asymmetric relation are equal. -/
theorem perm_pairwise_asymm_eq {α : Type} {R : α → α → Prop}
    (hasymm : ∀ a b, R a b → ¬ R b a) :
    ∀ {l₁ l₂ : List α}, l₁.Perm l₂ → l₁.Pairwise R → l₂.Pairwise R → l₁ = l₂ := by
  intro l₁
  induction l₁ with
  | nil =>
    intro l₂ hp _ _
    cases l₂ with
    | nil => rfl
    | cons b t₂ => have := hp.length_eq; simp at this
  | cons a t₁ ih =>
    intro l₂ hp h₁ h₂
    cases l₂ with
    | nil => have := hp.length_eq; simp at this
    | cons b t₂ =>
      have hab : a = b := by
        by_contra hne
        have ha2 : a ∈ b :: t₂ := hp.mem_iff.mp (List.mem_cons_self a t₁)
        have hb1 : b ∈ a :: t₁ := hp.symm.mem_iff.mp (List.mem_cons_self b t₂)
        have ha2' : a ∈ t₂ := by
          rcases List.mem_cons.mp ha2 with h | h
          · exact absurd h hne
          · exact h
        have hb1' : b ∈ t₁ := by
          rcases List.mem_cons.mp hb1 with h | h
          · exact absurd h.symm hne
          · exact h
        exact hasymm a b ((List.pairwise_cons.mp h₁).1 b hb1')
          ((List.pairwise_cons.mp h₂).1 a ha2')
      subst hab
      rw [ih hp.cons_inv h₁.of_cons h₂.of_cons]

theorem pairwise_lt_of_le_nodup {α β : Type} [LinearOrder β] (f : α → β)
    {l : List α} (hs : l.Pairwise (fun a b => f a ≤ f b))
    (hnd : (l.map f).Nodup) : l.Pairwise (fun a b => f a < f b) := by
  have hne : l.Pairwise (fun a b => f a ≠ f b) := List.pairwise_map.mp hnd
  exact (hs.and hne).imp (fun h => lt_of_le_of_ne h.1 h.2)

theorem pairwise_gt_of_ge_nodup {α β : Type} [LinearOrder β] (f : α → β)
    {l : List α} (hs : l.Pairwise (fun a b => f b ≤ f a))
    (hnd : (l.map f).Nodup) : l.Pairwise (fun a b => f b < f a) := by
  have hne : l.Pairwise (fun a b => f a ≠ f b) := List.pairwise_map.mp hnd
  exact (hs.and hne).imp (fun h => lt_of_le_of_ne h.1 h.2.symm)

theorem nodup_ids_of_asc {l : List Row}
    (hid : l.Pairwise (fun a b => a.id < b.id)) :
    (l.map (fun r => r.id)).Nodup :=
  List.pairwise_map.mpr (hid.imp (fun h => Nat.ne_of_lt h))

/-- On a table with unique ids and unique keys, `ORDER BY ... DESC` produces
exactly the reverse of `ORDER BY ... ASC`. -/
theorem insertionSort_desc_eq_reverse (o : IterOrder) (l : List Row)
    (hkey : (l.map (fun r => r.key)).Nodup)
    (hid : l.Pairwise (fun a b => a.id < b.id)) :
    List.insertionSort (rowGe o) l = (List.insertionSort (rowLe o) l).reverse := by
  cases o with
  | byId =>
    have hnd : (l.map (fun r => r.id)).Nodup := nodup_ids_of_asc hid
    have pAsc : (List.insertionSort (rowLe IterOrder.byId) l).Perm l :=
      List.perm_insertionSort _ l
    have pDesc : (List.insertionSort (rowGe IterOrder.byId) l).Perm l :=
      List.perm_insertionSort _ l
    have hndA : ((List.insertionSort (rowLe IterOrder.byId) l).map (fun r => r.id)).Nodup :=
      (pAsc.map _).nodup_iff.mpr hnd
    have hndD : ((List.insertionSort (rowGe IterOrder.byId) l).map (fun r => r.id)).Nodup :=
      (pDesc.map _).nodup_iff.mpr hnd
    have hsA : (List.insertionSort (rowLe IterOrder.byId) l).Pairwise
        (fun a b => a.id ≤ b.id) :=
      List.sorted_insertionSort (rowLe IterOrder.byId) l
    have hsD : (List.insertionSort (rowGe IterOrder.byId) l).Pairwise
        (fun a b => b.id ≤ a.id) :=
      List.sorted_insertionSort (rowGe IterOrder.byId) l
    refine perm_pairwise_asymm_eq (R := fun a b : Row => b.id < a.id)
      (fun a b h h' => absurd h' (lt_asymm h))
      (pDesc.trans (pAsc.symm.trans (List.reverse_perm _).symm))
      (pairwise_gt_of_ge_nodup (fun r : Row => r.id) hsD hndD) ?_
    rw [List.pairwise_reverse]
    exact pairwise_lt_of_le_nodup (fun r : Row => r.id) hsA hndA
  | byKey =>
    have pAsc : (List.insertionSort (rowLe IterOrder.byKey) l).Perm l :=
      List.perm_insertionSort _ l
    have pDesc : (List.insertionSort (rowGe IterOrder.byKey) l).Perm l :=
      List.perm_insertionSort _ l
    have hndA : ((List.insertionSort (rowLe IterOrder.byKey) l).map (fun r => r.key)).Nodup :=
      (pAsc.map _).nodup_iff.mpr hkey
    have hndD : ((List.insertionSort (rowGe IterOrder.byKey) l).map (fun r => r.key)).Nodup :=
      (pDesc.map _).nodup_iff.mpr hkey
    have hsA : (List.insertionSort (rowLe IterOrder.byKey) l).Pairwise
        (fun a b => a.key ≤ b.key) :=
      List.sorted_insertionSort (rowLe IterOrder.byKey) l
    have hsD : (List.insertionSort (rowGe IterOrder.byKey) l).Pairwise
        (fun a b => b.key ≤ a.key) :=
      List.sorted_insertionSort (rowGe IterOrder.byKey) l
    refine perm_pairwise_asymm_eq (R := fun a b : Row => b.key < a.key)
      (fun a b h h' => absurd h' (lt_asymm h))
      (pDesc.trans (pAsc.symm.trans (List.reverse_perm _).symm))
      (pairwise_gt_of_ge_nodup (fun r : Row => r.key) hsD hndD) ?_
    rw [List.pairwise_reverse]
    exact pairwise_lt_of_le_nodup (fun r : Row => r.key) hsA hndA

theorem selectRows_desc_eq_reverse (o : IterOrder) {t : Table} (hinv : Inv t) :
    selectRows o true t = (selectRows o false t).reverse := by
  unfold selectRows
  rw [if_pos rfl, if_neg Bool.false_ne_true]
  exact insertionSort_desc_eq_reverse o t.rows hinv.keysNodup hinv.asc

/-- C9: on any mapping state with unique ids and unique keys, for each of the
sequences keys/values/items and in either order (id order or key order), the
reversed (`DESC`) iteration yields exactly the reverse of the forward (`ASC`)
iteration over the same unmodified state. -/
theorem spec_c9_reversed_iteration (t : Table) (hinv : Inv t) (o : IterOrder) :
    keysSeq o true t = (keysSeq o false t).reverse
      ∧ valuesSeq o true t = (valuesSeq o false t).reverse
      ∧ itemsSeq o true t = (itemsSeq o false t).reverse := by
  have h := selectRows_desc_eq_reverse o hinv
  refine ⟨?_, ?_, ?_⟩ <;>
    simp only [keysSeq, valuesSeq, itemsSeq, h, List.map_reverse]

/-- Witness for C9 on a two-row table whose key order differs from its id
order, in both orders. -/
theorem spec_c9_reversed_iteration_witness :
    (keysSeq IterOrder.byId true ⟨[⟨1, "b", 5, "y"⟩, ⟨2, "a", 5, "x"⟩], 3⟩
        = (keysSeq IterOrder.byId false ⟨[⟨1, "b", 5, "y"⟩, ⟨2, "a", 5, "x"⟩], 3⟩).reverse
      ∧ valuesSeq IterOrder.byId true ⟨[⟨1, "b", 5, "y"⟩, ⟨2, "a", 5, "x"⟩], 3⟩
        = (valuesSeq IterOrder.byId false ⟨[⟨1, "b", 5, "y"⟩, ⟨2, "a", 5, "x"⟩], 3⟩).reverse
      ∧ itemsSeq IterOrder.byId true ⟨[⟨1, "b", 5, "y"⟩, ⟨2, "a", 5, "x"⟩], 3⟩
        = (itemsSeq IterOrder.byId false ⟨[⟨1, "b", 5, "y"⟩, ⟨2, "a", 5, "x"⟩], 3⟩).reverse)
    ∧ (keysSeq IterOrder.byKey true ⟨[⟨1, "b", 5, "y"⟩, ⟨2, "a", 5, "x"⟩], 3⟩
        = (keysSeq IterOrder.byKey false ⟨[⟨1, "b", 5, "y"⟩, ⟨2, "a", 5, "x"⟩], 3⟩).reverse
      ∧ valuesSeq IterOrder.byKey true ⟨[⟨1, "b", 5, "y"⟩, ⟨2, "a", 5, "x"⟩], 3⟩
        = (valuesSeq IterOrder.byKey false ⟨[⟨1, "b", 5, "y"⟩, ⟨2, "a", 5, "x"⟩], 3⟩).reverse
      ∧ itemsSeq IterOrder.byKey true ⟨[⟨1, "b", 5, "y"⟩, ⟨2, "a", 5, "x"⟩], 3⟩
        = (itemsSeq IterOrder.byKey false ⟨[⟨1, "b", 5, "y"⟩, ⟨2, "a", 5, "x"⟩], 3⟩).reverse) :=
  ⟨spec_c9_reversed_iteration ⟨[⟨1, "b", 5, "y"⟩, ⟨2, "a", 5, "x"⟩], 3⟩
      ⟨by decide, by decide, by decide⟩ IterOrder.byId,
    spec_c9_reversed_iteration ⟨[⟨1, "b", 5, "y"⟩, ⟨2, "a", 5, "x"⟩], 3⟩
      ⟨by decide, by decide, by decide⟩ IterOrder.byKey⟩

theorem filter_key_eq_nil {t : Table} {k : String}
    (habs : containsKey t k = false) :
    t.rows.filter (fun r => r.key = k) = [] := by
  rw [List.filter_eq_nil_iff]
  intro r hr
  simp only [decide_eq_true_eq]
  intro hk
  have : containsKey t k = true := by
    simp only [containsKey, List.any_eq_true, decide_eq_true_eq]
    exact ⟨r, hr, hk⟩
  rw [habs] at this
  cases this

theorem filter_key_one_of_nodup {l : List Row} {k : String}
    (hnd : (l.map (fun r => r.key)).Nodup) (hmem : k ∈ l.map (fun r => r.key)) :
    (l.filter (fun r => r.key = k)).length = 1 := by
  induction l with
  | nil => cases hmem
  | cons a l ih =>
    simp only [List.map_cons, List.nodup_cons] at hnd
    simp only [List.map_cons] at hmem
    rcases List.mem_cons.mp hmem with h | h
    · have hnone : l.filter (fun r => r.key = k) = [] := by
        rw [List.filter_eq_nil_iff]
        intro r hr
        simp only [decide_eq_true_eq]
        intro hk
        refine hnd.1 ?_
        rw [← h, ← hk]
        exact List.mem_map_of_mem (fun r => r.key) hr
      simp [List.filter_cons, h.symm, hnone]
    · have hne : ¬ a.key = k := by
        intro hk
        exact hnd.1 (hk ▸ h)
      simp only [List.filter_cons, hne, decide_False, if_false, ite_false]
      exact ih hnd.2 h

theorem length_filter_split (l : List Row) (k : String) :
    l.length = (l.filter (fun r => ¬ r.key = k)).length
      + (l.filter (fun r => r.key = k)).length := by
  induction l with
  | nil => rfl
  | cons a l ih =>
    by_cases h : a.key = k <;> simp [List.filter_cons, h, ih] <;> omega

/-- C4: `get` and `delete` on an absent key each fail with `KeyError`;
`delete` on a present key (under the unique-key schema) removes exactly that
one row; and after a successful `delete k`, a further `delete k` fails with
`KeyError` again rather than being a no-op. -/
theorem spec_c4_delete_semantics (t : Table) (k : String) (hinv : Inv t) :
    (containsKey t k = false →
      getitem t k = Except.error (Err.keyError k)
        ∧ delitem t k = Except.error (Err.keyError k))
    ∧ (containsKey t k = true →
      delitem t k = Except.ok { t with rows := t.rows.filter (fun r => ¬ r.key = k) }
        ∧ tableLen t
            = tableLen { t with rows := t.rows.filter (fun r => ¬ r.key = k) } + 1)
    ∧ (∀ t2, delitem t k = Except.ok t2 →
      delitem t2 k = Except.error (Err.keyError k)) := by
  refine ⟨?_, ?_, ?_⟩
  · intro habs
    constructor
    · unfold getitem
      have hfind : t.rows.find? (fun r => r.key = k) = none := by
        rw [List.find?_eq_none]
        intro r hr
        simp only [decide_eq_true_eq]
        intro hk
        have : containsKey t k = true := by
          simp only [containsKey, List.any_eq_true, decide_eq_true_eq]
          exact ⟨r, hr, hk⟩
        rw [habs] at this
        cases this
      rw [hfind]
    · unfold delitem
      rw [filter_key_eq_nil habs]
      simp
  · intro hpres
    have hone : (t.rows.filter (fun r => r.key = k)).length = 1 :=
      filter_key_one_of_nodup hinv.keysNodup (containsKey_iff_mem.mp hpres)
    constructor
    · unfold delitem
      rw [if_pos hone]
    · have := length_filter_split t.rows k
      simp only [tableLen]
      omega
  · intro t2 hdel
    have hrows := delitem_ok_rows hdel
    unfold delitem
    have hnone : t2.rows.filter (fun r => r.key = k) = [] := by
      rw [List.filter_eq_nil_iff]
      intro r hr
      rw [hrows] at hr
      have := List.of_mem_filter hr
      simpa using this
    rw [hnone]
    simp

/-- Witness for C4 on a one-row table with a present and an absent key. -/
theorem spec_c4_delete_semantics_witness :
    (containsKey ⟨[⟨1, "a", 5, "x"⟩], 2⟩ "missing" = false →
      getitem ⟨[⟨1, "a", 5, "x"⟩], 2⟩ "missing" = Except.error (Err.keyError "missing")
        ∧ delitem ⟨[⟨1, "a", 5, "x"⟩], 2⟩ "missing" = Except.error (Err.keyError "missing"))
    ∧ (containsKey ⟨[⟨1, "a", 5, "x"⟩], 2⟩ "missing" = true →
      delitem ⟨[⟨1, "a", 5, "x"⟩], 2⟩ "missing"
          = Except.ok { Table.mk [⟨1, "a", 5, "x"⟩] 2 with
              rows := (Table.mk [⟨1, "a", 5, "x"⟩] 2).rows.filter (fun r => ¬ r.key = "missing") }
        ∧ tableLen ⟨[⟨1, "a", 5, "x"⟩], 2⟩
            = tableLen { Table.mk [⟨1, "a", 5, "x"⟩] 2 with
                rows := (Table.mk [⟨1, "a", 5, "x"⟩] 2).rows.filter (fun r => ¬ r.key = "missing") } + 1)
    ∧ (∀ t2, delitem ⟨[⟨1, "a", 5, "x"⟩], 2⟩ "missing" = Except.ok t2 →
      delitem t2 "missing" = Except.error (Err.keyError "missing")) :=
  spec_c4_delete_semantics ⟨[⟨1, "a", 5, "x"⟩], 2⟩ "missing"
    ⟨by decide, by decide, by decide⟩

theorem postpone_idKeyValues (now lifespan : Int) (t : Table) (k : String) :
    (postpone now lifespan t k).rows.map (fun r => (r.id, r.key, r.value))
      = t.rows.map (fun r => (r.id, r.key, r.value)) := by
  unfold postpone
  simp only
  induction t.rows with
  | nil => rfl
  | cons a l ih =>
    by_cases h : a.key = k <;> simp only [List.map_cons, h, if_true, if_false, ih]

theorem postponeAll_idKeyValues (now lifespan : Int) (t : Table) :
    (postponeAll now lifespan t).rows.map (fun r => (r.id, r.key, r.value))
      = t.rows.map (fun r => (r.id, r.key, r.value)) := by
  unfold postponeAll
  simp only
  induction t.rows with
  | nil => rfl
  | cons a l ih => simp only [List.map_cons, ih]

/-- C5: every `set` — whether it takes the insert arm or the value-update
arm — fires the purge trigger, so immediately afterwards no logically dead
row (one with `expire <= now`) remains; whereas `postpone` and
`postpone_all` rewrite only the expiration column and never purge: every
row, including logically dead ones, survives with id, key and value
unchanged. -/
theorem spec_c5_purge_on_write (now lifespan : Int) (t : Table) (k v : String) :
    (∀ r ∈ (setitem now lifespan t k v).rows, now < r.expire)
    ∧ (postpone now lifespan t k).rows.map (fun r => (r.id, r.key, r.value))
        = t.rows.map (fun r => (r.id, r.key, r.value))
    ∧ (postponeAll now lifespan t).rows.map (fun r => (r.id, r.key, r.value))
        = t.rows.map (fun r => (r.id, r.key, r.value)) :=
  ⟨allLive_setitem now lifespan t k v,
    postpone_idKeyValues now lifespan t k,
    postponeAll_idKeyValues now lifespan t⟩

/-- Witness for C5: a table holding a dead row (`expire = -3 <= now = 0`);
`set` purges it, `postpone`/`postpone_all` keep it. -/
theorem spec_c5_purge_on_write_witness :
    (∀ r ∈ (setitem 0 7 ⟨[⟨1, "dead", -3, "x"⟩], 2⟩ "k" "v").rows, (0 : Int) < r.expire)
    ∧ (postpone 0 7 ⟨[⟨1, "dead", -3, "x"⟩], 2⟩ "k").rows.map (fun r => (r.id, r.key, r.value))
        = (Table.mk [⟨1, "dead", -3, "x"⟩] 2).rows.map (fun r => (r.id, r.key, r.value))
    ∧ (postponeAll 0 7 ⟨[⟨1, "dead", -3, "x"⟩], 2⟩).rows.map (fun r => (r.id, r.key, r.value))
        = (Table.mk [⟨1, "dead", -3, "x"⟩] 2).rows.map (fun r => (r.id, r.key, r.value)) :=
  spec_c5_purge_on_write 0 7 ⟨[⟨1, "dead", -3, "x"⟩], 2⟩ "k" "v"

theorem map_ite_key_of_absent (l : List Row) (k : String) (g : Row → Row)
    (h : ∀ r ∈ l, ¬ r.key = k) :
    l.map (fun r => if r.key = k then g r else r) = l := by
  induction l with
  | nil => rfl
  | cons a l ih =>
    rw [List.map_cons, if_neg (h a (List.mem_cons_self a l)),
      ih (fun r hr => h r (List.mem_cons_of_mem a hr))]

/-- C10: `postpone` on an absent key succeeds and leaves the table completely
unchanged (its `UPDATE ... WHERE key = ?` matches no row and the code checks
no rowcount), whereas `delete` on the same absent key fails with `KeyError`. -/
theorem spec_c10_postpone_missing (now lifespan : Int) (t : Table) (k : String)
    (habs : containsKey t k = false) :
    postpone now lifespan t k = t
      ∧ delitem t k = Except.error (Err.keyError k) := by
  constructor
  · have hnone : ∀ r ∈ t.rows, ¬ r.key = k := by
      intro r hr hk
      have : containsKey t k = true := by
        simp only [containsKey, List.any_eq_true, decide_eq_true_eq]
        exact ⟨r, hr, hk⟩
      rw [habs] at this
      cases this
    unfold postpone
    rw [map_ite_key_of_absent t.rows k _ hnone]
  · unfold delitem
    rw [filter_key_eq_nil habs]
    simp

/-- Witness for C10: postponing a key absent from a one-row table. -/
theorem spec_c10_postpone_missing_witness :
    postpone 0 7 ⟨[⟨1, "a", 5, "x"⟩], 2⟩ "missing" = ⟨[⟨1, "a", 5, "x"⟩], 2⟩
      ∧ delitem ⟨[⟨1, "a", 5, "x"⟩], 2⟩ "missing"
          = Except.error (Err.keyError "missing") :=
  spec_c10_postpone_missing 0 7 ⟨[⟨1, "a", 5, "x"⟩], 2⟩ "missing" (by decide)

/-- C1 counterexample: the claim asserts that on a read-only connection each
mutating operation signals a usage error *before issuing any statement
against the storage engine*.  On the code this is false: `Mapping.__setitem__`,
`__delitem__` and `clear` contain no mode check, so on a read-only connection
each still issues its write statement (shown here at a concrete input: the
issued-statement list is nonempty for all three). -/
theorem spec_c1_counterexample :
    (setitemOp Mode.readOnly 0 60 emptyTable "k" "v").2 = [Stmt.upsert "k" "v"]
      ∧ ¬ (setitemOp Mode.readOnly 0 60 emptyTable "k" "v").2 = []
      ∧ (delitemOp Mode.readOnly emptyTable "k").2 = [Stmt.deleteWhereKey "k"]
      ∧ ¬ (delitemOp Mode.readOnly emptyTable "k").2 = []
      ∧ (clearOp Mode.readOnly emptyTable).2 = [Stmt.deleteAllRows]
      ∧ ¬ (clearOp Mode.readOnly emptyTable).2 = [] := by
  refine ⟨rfl, ?_, rfl, ?_, rfl, ?_⟩ <;> decide

/-- C1 amended: on a read-only or immutable connection, `set`, `delete` and
`clear` each still issue their single write statement (the mapping layer has
no prior usage check); the storage engine then rejects the write, so the
operation fails with the engine's read-only error and the underlying table
is never modified — but the failure arises at statement execution, not
before it. -/
theorem spec_c1_readonly_engine_reject (mode : Mode) (now lifespan : Int)
    (t : Table) (k v : String) (hmode : ¬ mode = Mode.readWrite) :
    ((setitemOp mode now lifespan t k v).1 = Except.error Err.readOnlyDb
      ∧ (setitemOp mode now lifespan t k v).2 = [Stmt.upsert k v])
    ∧ ((delitemOp mode t k).1 = Except.error Err.readOnlyDb
      ∧ (delitemOp mode t k).2 = [Stmt.deleteWhereKey k])
    ∧ ((clearOp mode t).1 = Except.error Err.readOnlyDb
      ∧ (clearOp mode t).2 = [Stmt.deleteAllRows]) := by
  unfold setitemOp delitemOp clearOp execWrite
  simp only [if_neg hmode]
  exact ⟨⟨trivial, trivial⟩, ⟨trivial, trivial⟩, ⟨trivial, trivial⟩⟩

/-- Witness for the amended C1 on an immutable connection. -/
theorem spec_c1_readonly_engine_reject_witness :
    ((setitemOp Mode.immutable 0 60 ⟨[⟨1, "a", 5, "x"⟩], 2⟩ "k" "v").1
          = Except.error Err.readOnlyDb
      ∧ (setitemOp Mode.immutable 0 60 ⟨[⟨1, "a", 5, "x"⟩], 2⟩ "k" "v").2
          = [Stmt.upsert "k" "v"])
    ∧ ((delitemOp Mode.immutable ⟨[⟨1, "a", 5, "x"⟩], 2⟩ "k").1
          = Except.error Err.readOnlyDb
      ∧ (delitemOp Mode.immutable ⟨[⟨1, "a", 5, "x"⟩], 2⟩ "k").2
          = [Stmt.deleteWhereKey "k"])
    ∧ ((clearOp Mode.immutable ⟨[⟨1, "a", 5, "x"⟩], 2⟩).1
          = Except.error Err.readOnlyDb
      ∧ (clearOp Mode.immutable ⟨[⟨1, "a", 5, "x"⟩], 2⟩).2
          = [Stmt.deleteAllRows]) :=
  spec_c1_readonly_engine_reject Mode.immutable 0 60 ⟨[⟨1, "a", 5, "x"⟩], 2⟩
    "k" "v" (by decide)

/-- C6: closing a transaction scope with a failure outcome restores the live
state to the scope's entry point — writes made inside the scope (`w1`)
become invisible while a write made in the enclosing scope before the scope
began (`w0`) remains — the scope's stack entry is always retired (the
savepoint is still released: `ROLLBACK TO` then `RELEASE`), and the original
failure propagates; closing with a success outcome keeps the inner writes
and commits (outermost scope) or releases (nested scope). -/
theorem spec_c6_scope_exit (s : ConnState) (w0 w1 : Table → Table) :
    connExit true (connWrite w1 (connEnter (connWrite w0 s)))
        = some ({ live := w0 s.live, stack := s.stack },
            (if s.stack.isEmpty then [TxAction.rollback]
              else [TxAction.rollbackTo, TxAction.release]), true)
    ∧ connExit false (connWrite w1 (connEnter (connWrite w0 s)))
        = some ({ live := w1 (w0 s.live), stack := s.stack },
            (if s.stack.isEmpty then [TxAction.commit]
              else [TxAction.release]), false) := by
  by_cases h : s.stack.isEmpty <;>
    simp [connExit, connEnter, connWrite, transactionExit, savepointExit, h]

/-- C7: opening a collection whose registry row records a different kind
fails with a type-mismatch error naming the requested and the recorded
kinds, and raises before anything is modified: the file state carried out at
the raise is exactly the input state, so no schema-modifying statement for
that collection (nor anything else) has run.  When the recorded kind
matches, construction succeeds with the file untouched and the recorded
version available through the `_version` getter. -/
theorem spec_c7_kind_check (ro : Bool) (f : DbFile)
    (reg : List (String × String × Nat)) (table existing requested : String)
    (ver : Nat)
    (happ : f.applicationId = APPLICATION_ID) (huser : f.userVersion = 1)
    (hreg : f.registry = some reg)
    (hlook : regLookup reg table = some (existing, ver)) :
    (¬ requested = existing →
      baseInit ro f table requested
        = Except.error (Err.typeMismatch requested existing, f))
    ∧ (requested = existing →
      baseInit ro f table requested = Except.ok f
        ∧ getVersion f table = some ver) := by
  have happ0 : ¬ f.applicationId = 0 := by
    rw [happ]
    decide
  have huser0 : ¬ f.userVersion = 0 := by
    rw [huser]
    decide
  constructor
  · intro hne
    unfold baseInit
    rw [if_neg happ0, if_neg (by simp [happ]), if_neg huser0,
      if_neg (by simp [huser]),
      if_neg (by simp [hreg])]
    simp only [hreg, hlook]
    rw [if_pos hne]
  · intro heq
    constructor
    · unfold baseInit
      rw [if_neg happ0, if_neg (by simp [happ]), if_neg huser0,
        if_neg (by simp [huser]),
        if_neg (by simp [hreg])]
      simp only [hreg, hlook]
      rw [if_neg (by simp [heq])]
    · unfold getVersion
      rw [hreg]
      simp [hlook]

/-- Witness for C7: a file whose registry records `m` as a `mapping`;
reopening as `expiring-mapping` fails with the mismatch error and the
untouched file, reopening as `mapping` succeeds with recorded version 1. -/
theorem spec_c7_kind_check_witness :
    (¬ "expiring-mapping" = "mapping" →
      baseInit false ⟨APPLICATION_ID, 1, some [("m", "mapping", 1)], ["m"], []⟩
          "m" "expiring-mapping"
        = Except.error (Err.typeMismatch "expiring-mapping" "mapping",
            ⟨APPLICATION_ID, 1, some [("m", "mapping", 1)], ["m"], []⟩))
    ∧ ("expiring-mapping" = "mapping" →
      baseInit false ⟨APPLICATION_ID, 1, some [("m", "mapping", 1)], ["m"], []⟩
          "m" "expiring-mapping"
        = Except.ok ⟨APPLICATION_ID, 1, some [("m", "mapping", 1)], ["m"], []⟩
        ∧ getVersion ⟨APPLICATION_ID, 1, some [("m", "mapping", 1)], ["m"], []⟩ "m"
            = some 1) :=
  spec_c7_kind_check false ⟨APPLICATION_ID, 1, some [("m", "mapping", 1)], ["m"], []⟩
    [("m", "mapping", 1)] "m" "mapping" "expiring-mapping" 1
    rfl rfl rfl (by decide)

/-- Reading a quoted body off `escQuotes l ++ closing-quote ++ rest` recovers
`l` exactly, for any continuation not beginning with a quote. -/
theorem readQuotedAux_escQuotes (l : List Char) :
    ∀ rest : List Char, ¬ rest.head? = some '"' →
      readQuotedAux false (escQuotes l ++ '"' :: rest) = some (l, rest) := by
  induction l with
  | nil =>
    intro rest hrest
    cases rest with
    | nil => rfl
    | cons c2 r2 =>
      have hc2 : ¬ c2 = '"' := by
        intro h
        exact hrest (by rw [h]; rfl)
      simp [escQuotes, readQuotedAux, hc2]
  | cons c l ih =>
    intro rest hrest
    by_cases hc : c = '"'
    · subst hc
      simp [escQuotes, readQuotedAux, ih rest hrest]
    · simp [escQuotes, hc, readQuotedAux, ih rest hrest]

/-- C8 counterexample: the claim asserts the null-byte rejection happens at
construction time, never deferred to interpolation.  On the code it is the
opposite: constructing an `Identifier` from a name consisting of a null byte
succeeds — the value is stored untouched — and the `ValueError` is raised
only when the identifier is rendered into a statement (`__str__`). -/
theorem spec_c8_counterexample :
    (Identifier.mk (String.mk [Char.ofNat 0])).value = String.mk [Char.ofNat 0]
      ∧ Identifier.render (Identifier.mk (String.mk [Char.ofNat 0]))
          = Except.error Err.nullByteInIdentifier := by
  constructor
  · rfl
  · rfl

/-- C8 amended: `Identifier` accepts any name at construction; the null-byte
check runs when the identifier is rendered into a generated statement, where
a name containing a null byte raises `ValueError`.  For every null-free name
the rendering is a safe embedding: the statement reader consumes exactly the
rendered identifier and recovers the original name, for any statement
continuation that does not itself begin with a quote. -/
theorem spec_c8_render_null_check (i : Identifier) :
    ((Char.ofNat 0) ∈ i.value.data →
      Identifier.render i = Except.error Err.nullByteInIdentifier)
    ∧ (¬ (Char.ofNat 0) ∈ i.value.data →
      ∀ rest : List Char, ¬ rest.head? = some '"' →
        Identifier.render i
            = Except.ok (String.mk ('"' :: escQuotes i.value.data ++ ['"']))
          ∧ readQuotedIdent (('"' :: escQuotes i.value.data ++ ['"']) ++ rest)
              = some (i.value.data, rest)) := by
  constructor
  · intro hmem
    unfold Identifier.render
    rw [if_pos hmem]
  · intro hmem rest hrest
    constructor
    · unfold Identifier.render
      rw [if_neg hmem]
    · show readQuotedAux false ((escQuotes i.value.data ++ ['"']) ++ rest)
          = some (i.value.data, rest)
      rw [List.append_assoc]
      exact readQuotedAux_escQuotes i.value.data rest hrest

/-- Witness for the amended C8 on the name `ta"ble` followed by the
continuation `.rest`. -/
theorem spec_c8_render_null_check_witness :
    Identifier.render ⟨"ta\"ble"⟩
        = Except.ok (String.mk ('"' :: escQuotes "ta\"ble".data ++ ['"']))
      ∧ readQuotedIdent (('"' :: escQuotes "ta\"ble".data ++ ['"']) ++ ".rest".data)
          = some ("ta\"ble".data, ".rest".data) :=
  (spec_c8_render_null_check ⟨"ta\"ble"⟩).2 (by decide) ".rest".data (by decide)

end TPCollections
